import Mathlib

/-!
Verification of the rcognita control/learning utilities against their
natural-language specification.  The Python sources are shallowly embedded:
numpy / CasADi arrays become lists of rationals (row-major matrices as lists
of rows), fallible or non-returning Python paths become `Option` / explicit
result constructors, and stateful objects become explicit state passing.
-/

namespace Rcognita

/-- Real vectors (numpy 1-D arrays) are embedded as lists of rationals;
the claims are about exact arithmetic identities, which rationals model. -/
abbrev Vec := List ℚ

/-- Matrices (numpy 2-D arrays / CasADi DM) are embedded row-major as lists of rows. -/
abbrev Mat := List (List ℚ)

/-- Elementwise sum of two vectors. -/
def vadd (v w : Vec) : Vec := List.zipWith (· + ·) v w

/-- Dot product of two equal-length vectors. -/
def dotProd (v w : Vec) : ℚ := (List.zipWith (· * ·) v w).sum

/-- Matrix-vector product `A @ x`. -/
def matVec (A : Mat) (x : Vec) : Vec := A.map (fun row => dotProd row x)

/-- Row i of a matrix (0 outside, as a total embedding device). -/
def rowAt (mat : Mat) (i : ℕ) : List ℚ := mat.getD i []

/-- Entry `mat[i, j]` of a matrix. -/
def entryAt (mat : Mat) (i j : ℕ) : ℚ := (rowAt mat i).getD j 0

/-- Transpose of a row-major matrix with a stated column count. -/
def transposeAt (mat : Mat) (cols : ℕ) : Mat :=
  (List.range cols).map (fun j => mat.map (fun row => row.getD j 0))

/-- Matrix product `A @ B`, with `B` given row-major and `cols` its column count. -/
def matMul (A B : Mat) (cols : ℕ) : Mat :=
  A.map (fun arow => (List.range cols).map (fun j => dotProd arow (B.map (fun brow => brow.getD j 0))))

/-- The Python `utilities.push_vec(matrix, vec) = nc.vstack([matrix[1:, :], vec.T])`:
the slice `matrix[1:, :]` drops the first row and `np.vstack` appends the 1-D
`vec` (for which `.T` is the identity) as one new last row. -/
def push_vec {α : Type} (matrix : List (List α)) (vec : List α) : List (List α) :=
  matrix.drop 1 ++ [vec]

/-- Repeatedly push samples into a buffer, oldest first (left fold, as a
sequence of `push_vec` calls performs). -/
def push_many {α : Type} (matrix : List (List α)) (samples : List (List α)) : List (List α) :=
  samples.foldl push_vec matrix

/-- State of `utilities.ZOH`: fields `time_step`, `sample_time`, `currVal`. -/
structure ZOH where
  time_step : ℚ
  sample_time : ℚ
  currVal : ℚ
deriving DecidableEq

/-- `ZOH.hold(signal_val, t)`: computes `timeInSample = t - time_step`; on
`timeInSample >= sample_time` it stores `t` and `signal_val` and returns the
(updated) `currVal`, otherwise it returns the held `currVal` unchanged.
Returns the Python return value paired with the post-call object state. -/
def ZOH.hold (z : ZOH) (signal_val t : ℚ) : ℚ × ZOH :=
  let timeInSample := t - z.time_step
  if z.sample_time ≤ timeInSample then
    (signal_val, ⟨t, z.sample_time, signal_val⟩)
  else
    (z.currVal, z)

/-- `models.ModelSS` object state.  The constructor assigns attributes
`A, B, C, D, x0est`; the attribute `x0set` does not exist after `__init__`
(it is only ever created by `updateIC`), hence an `Option` initialized to
`none` by `ModelSS.init`. -/
structure ModelSS where
  A : Mat
  B : Mat
  C : Mat
  D : Mat
  x0est : Vec
  x0set : Option Vec
deriving DecidableEq

/-- `ModelSS.__init__(A, B, C, D, x0est)`. -/
def ModelSS.init (A B C D : Mat) (x0est : Vec) : ModelSS :=
  ⟨A, B, C, D, x0est, none⟩

/-- `ModelSS.upd_pars(Anew, Bnew, Cnew, Dnew)`: assigns the four matrix fields. -/
def ModelSS.upd_pars (m : ModelSS) (Anew Bnew Cnew Dnew : Mat) : ModelSS :=
  { m with A := Anew, B := Bnew, C := Cnew, D := Dnew }

/-- `ModelSS.updateIC(x0setNew)`: the body is `self.x0set = x0setNew` — it
writes the attribute named `x0set`, not the attribute `x0est` assigned by
the constructor. -/
def ModelSS.updateIC (m : ModelSS) (x0setNew : Vec) : ModelSS :=
  { m with x0set := some x0setNew }

/-- The loop body of `utilities.dss_sim` for a 2-D input sequence: starting
from state `x`, each consumed input row `u` performs
`x = A @ x + B @ u; xSqn[k] = x; ySqn[k] = C @ x + D @ u`.
Returns the lists of produced states and outputs (indices `k = 1, ...`). -/
def dss_steps (A B C D : Mat) (x : Vec) : List Vec → List Vec × List Vec
  | [] => ([], [])
  | u :: us =>
    let xNew := vadd (matVec A x) (matVec B u)
    let yNew := vadd (matVec C xNew) (matVec D u)
    let rest := dss_steps A B C D xNew us
    (xNew :: rest.1, yNew :: rest.2)

/-- Input-sequence argument of `dss_sim`: numpy dispatches on `uSqn.ndim`. -/
inductive USqn where
  | oneD (u : Vec)
  | twoD (rows : List Vec)

/-- `utilities.dss_sim(A, B, C, D, uSqn, x0, y0)`: for 1-D `uSqn` it returns
`(y0, x0)` unchanged; for 2-D `uSqn` of `N` rows it seeds `ySqn[0] = y0`,
`xSqn[0] = x0` and runs the recurrence for `k = 1 .. N-1`, consuming input
rows `uSqn[0 .. N-2]` (i.e. all but the last row). -/
def dss_sim (A B C D : Mat) (uSqn : USqn) (x0 y0 : Vec) :
    (List Vec × List Vec) ⊕ (Vec × Vec) :=
  match uSqn with
  | .oneD _ => Sum.inr (y0, x0)
  | .twoD rows =>
    let st := dss_steps A B C D x0 (rows.take (rows.length - 1))
    Sum.inl (y0 :: st.2, x0 :: st.1)

/-- One pass of the `while curr_iter <= max_iters` loop of
`utilities.rej_sampling_rvs`, with `max_iters = 1e3`.  `accept step` models
the acceptance test `unif_sample < pdf(proposal)/M/normal.pdf(proposal)` for
the `step`-th proposal; the returned realization is modelled by the index of
the accepted proposal.  Faithful to the source, the loop body never changes
`curr_iter`.  Result: `some (some k)` = the function returns the `k`-th
proposal; `some none` = the loop condition fails and the function returns
`None`; `none` = the given fuel ran out with the loop still running. -/
def rej_loop (accept : ℕ → Bool) : ℕ → ℕ → ℕ → Option (Option ℕ)
  | 0, _, _ => none
  | fuel + 1, step, curr_iter =>
    if curr_iter ≤ 1000 then
      if accept step then some (some step)
      else rej_loop accept fuel (step + 1) curr_iter
    else some none

/-- Runtime class tag of an array passed to the dual-mode API. -/
inductive ArrKind where
  | dm
  | sx
  | nparr
deriving DecidableEq

/-- Result of a Python call: a returned value, an implicit `return None`
(falling off the function body), or a raised `TypeError`. -/
inductive PyRet (α : Type) where
  | value (a : α)
  | noneRet
  | typeErr
deriving DecidableEq

/-- `SymbolicHandler.concatenate(tup)` (identical logic in
`utilities.py` and `npcasadi_api.py`): only the branch `len(tup) > 1` ever
returns; inside it, symbolic mode raises `TypeError` unless every element is
a CasADi `DM`/`SX`, and otherwise both modes concatenate (numpy
`np.concatenate` / CasADi `vertcat` on vectors). -/
def concatenate (is_symbolic : Bool) (tup : List (ArrKind × Vec)) : PyRet Vec :=
  if 1 < tup.length then
    if is_symbolic then
      if tup.all (fun a => a.1 == ArrKind.dm || a.1 == ArrKind.sx) then
        PyRet.value ((tup.map Prod.snd).flatten)
      else
        PyRet.typeErr
    else
      PyRet.value ((tup.map Prod.snd).flatten)
  else
    PyRet.noneRet

/-- `utilities.uptria2vec(mat)` embedded imperatively: with `n = mat.shape[0]`
it preallocates a zero vector of length `n*(n+1)/2` and fills positions
`k = 0, 1, 2, ...` with `mat[i, j]` for `i in range(n)`, `j in range(i, n)`. -/
def uptria2vec (mat : Mat) : Vec :=
  let n := mat.length
  let init := List.replicate (n * (n + 1) / 2) (0 : ℚ)
  ((List.range n).foldl (fun acc i =>
    (List.range' i (n - i)).foldl (fun acc2 j =>
      (acc2.1.set acc2.2 (entryAt mat i j), acc2.2 + 1)) acc) (init, 0)).1

/-- The upper-triangular entries `mat[i, j]`, `j >= i`, ordered row by row
(increasing `i`, then increasing `j`) — the ordering the claim states. -/
def uptriaEntries (mat : Mat) : Vec :=
  ((List.range mat.length).map (fun i =>
    (List.range' i (mat.length - i)).map (fun j => entryAt mat i j))).flatten

/-- One sequential preallocated-array write `vec[k] = x; k += 1`, the step the
`uptria2vec` loops iterate. -/
def seqWrite (p : List ℚ × ℕ) (x : ℚ) : List ℚ × ℕ :=
  (p.1.set p.2 x, p.2 + 1)

/-! Dual-mode array primitives of `SymbolicHandler` (`utilities.py`, same
branches in `npcasadi_api.py`).  Each primitive dispatches on the
`is_symbolic` flag between a numpy call and a CasADi call; both branches are
embedded from the respective library's mathematical semantics over exact
rationals/reals (the claim's 1e-9 tolerance absorbs float rounding, which the
exact embedding abstracts away). -/

/-- `np.cos`: numpy applies the mathematical cosine (taken as an explicit
scalar parameter, since it is the one transcendental both libraries share)
elementwise over the vector. -/
def np_cos (cosine : ℚ → ℚ) (v : Vec) : Vec := v.map cosine

/-- `casadi.cos`: CasADi applies the same mathematical cosine elementwise. -/
def casadi_cos (cosine : ℚ → ℚ) (v : Vec) : Vec := v.map cosine

/-- `SymbolicHandler.cos`. -/
def nc_cos (cosine : ℚ → ℚ) (is_symbolic : Bool) (v : Vec) : Vec :=
  if is_symbolic then casadi_cos cosine v else np_cos cosine v

/-- `np.sin`, elementwise mathematical sine. -/
def np_sin (sine : ℚ → ℚ) (v : Vec) : Vec := v.map sine

/-- `casadi.sin`, elementwise mathematical sine. -/
def casadi_sin (sine : ℚ → ℚ) (v : Vec) : Vec := v.map sine

/-- `SymbolicHandler.sin`. -/
def nc_sin (sine : ℚ → ℚ) (is_symbolic : Bool) (v : Vec) : Vec :=
  if is_symbolic then casadi_sin sine v else np_sin sine v

/-- `np.vstack(tup)`: stack matrices on top of each other. -/
def np_vstack (tup : List Mat) : Mat := tup.flatten

/-- `casadi.vertcat(*tup)`: concatenate matrices vertically. -/
def casadi_vertcat (tup : List Mat) : Mat := tup.flatten

/-- `SymbolicHandler.vstack`. -/
def nc_vstack (is_symbolic : Bool) (tup : List Mat) : Mat :=
  if is_symbolic then casadi_vertcat tup else np_vstack tup

/-- `np.hstack(tup)` on matrices of `r` rows each: concatenate columns,
i.e. row `i` of the result is the join of the rows `i`. -/
def np_hstack (tup : List Mat) (r : ℕ) : Mat :=
  (List.range r).map (fun i => (tup.map (fun m => rowAt m i)).flatten)

/-- `casadi.horzcat(*tup)` on matrices of `r` rows each. -/
def casadi_horzcat (tup : List Mat) (r : ℕ) : Mat :=
  (List.range r).map (fun i => (tup.map (fun m => rowAt m i)).flatten)

/-- `SymbolicHandler.hstack` (the `utilities.py` version, which unpacks the
tuple into `casadi.horzcat(*tup)`). -/
def nc_hstack (is_symbolic : Bool) (tup : List Mat) (r : ℕ) : Mat :=
  if is_symbolic then casadi_horzcat tup r else np_hstack tup r

/-- `np.matmul(A, B)` with `cols` the column count of `B`. -/
def np_matmul (A B : Mat) (cols : ℕ) : Mat := matMul A B cols

/-- `casadi.mtimes(A, B)` with `cols` the column count of `B`. -/
def casadi_mtimes (A B : Mat) (cols : ℕ) : Mat := matMul A B cols

/-- `SymbolicHandler.matmul`. -/
def nc_matmul (is_symbolic : Bool) (A B : Mat) (cols : ℕ) : Mat :=
  if is_symbolic then casadi_mtimes A B cols else np_matmul A B cols

/-- Arguments of the binary array primitives that accept 1-D or 2-D input. -/
inductive Args2 where
  | vecs (v w : Vec)
  | mats (A B : Mat)

/-- Frobenius inner product: sum of all elementwise products of two
equally-shaped matrices — the semantics of `casadi.dot` on matrices. -/
def frobInner (A B : Mat) : ℚ := (List.zipWith dotProd A B).sum

/-- Column count helper: the length of the first row. -/
def colsOf (B : Mat) : ℕ := (rowAt B 0).length

/-- Numeric `A @ B`: dot product for two 1-D operands, matrix product for
two 2-D operands. -/
def np_at : Args2 → ℚ ⊕ Mat
  | .vecs v w => Sum.inl (dotProd v w)
  | .mats A B => Sum.inr (matMul A B (colsOf B))

/-- `casadi.dot(A, B)`: the (Frobenius) inner product of two equally-shaped
arguments — a scalar even for matrices. -/
def casadi_dot : Args2 → ℚ ⊕ Mat
  | .vecs v w => Sum.inl (dotProd v w)
  | .mats A B => Sum.inl (frobInner A B)

/-- `SymbolicHandler.dot`: `casadi.dot` in symbolic mode, `A @ B` in numeric
mode. -/
def nc_dot (is_symbolic : Bool) (args : Args2) : ℚ ⊕ Mat :=
  if is_symbolic then casadi_dot args else np_at args

/-- `np.inner(A, B)`: dot product on 1-D operands; on 2-D operands the
inner product over the last axes, i.e. `A @ B.T`. -/
def np_inner : Args2 → ℚ ⊕ Mat
  | .vecs v w => Sum.inl (dotProd v w)
  | .mats A B => Sum.inr (matMul A (transposeAt B (colsOf B)) B.length)

/-- `SymbolicHandler.inner_product`: `casadi.dot` in symbolic mode,
`np.inner` in numeric mode. -/
def nc_inner_product (is_symbolic : Bool) (args : Args2) : ℚ ⊕ Mat :=
  if is_symbolic then casadi_dot args else np_inner args

/-- `np.min(array)` on a 1-D array (raises `ValueError` on an empty one,
hence `Option`). -/
def np_min (xs : Vec) : Option ℚ := xs.min?

/-- The symbolic branch of `SymbolicHandler.min`: `casadi.fmin(*array)`
unpacks the array into the two-argument function `casadi.fmin`, so it is a
`TypeError` (`none`) unless the array has exactly two entries. -/
def casadi_fmin_star (xs : Vec) : Option ℚ :=
  match xs with
  | [x, y] => some (min x y)
  | _ => none

/-- `SymbolicHandler.min`. -/
def nc_min (is_symbolic : Bool) (xs : Vec) : Option ℚ :=
  if is_symbolic then casadi_fmin_star xs else np_min xs

/-- `np.max(array)` on a 1-D array. -/
def np_max (xs : Vec) : Option ℚ := xs.max?

/-- The symbolic branch of `SymbolicHandler.max`: `casadi.fmax(array)` passes
the whole array as the single argument of the two-argument function
`casadi.fmax` — an arity `TypeError` on every input (`none`). -/
def casadi_fmax_one_arg (_xs : Vec) : Option ℚ := none

/-- `SymbolicHandler.max`. -/
def nc_max (is_symbolic : Bool) (xs : Vec) : Option ℚ :=
  if is_symbolic then casadi_fmax_one_arg xs else np_max xs

/-- Sign function (`np.sign` and `casadi.sign` agree on it). -/
def ratSign (q : ℚ) : ℚ := if 0 < q then 1 else if q < 0 then -1 else 0

/-- `np.sign`, elementwise. -/
def np_sign (v : Vec) : Vec := v.map ratSign

/-- `casadi.sign`, elementwise. -/
def casadi_sign (v : Vec) : Vec := v.map ratSign

/-- `SymbolicHandler.sign`. -/
def nc_sign (is_symbolic : Bool) (v : Vec) : Vec :=
  if is_symbolic then casadi_sign v else np_sign v

/-- `np.abs`, elementwise. -/
def np_abs (v : Vec) : Vec := v.map (fun q => |q|)

/-- `casadi.fabs`, elementwise. -/
def casadi_fabs (v : Vec) : Vec := v.map (fun q => |q|)

/-- `SymbolicHandler.abs`. -/
def nc_abs (is_symbolic : Bool) (v : Vec) : Vec :=
  if is_symbolic then casadi_fabs v else np_abs v

/-- Kronecker product of two row-major matrices. -/
def kronMat (A B : Mat) : Mat :=
  (A.map (fun arow => B.map (fun brow =>
    (arow.map (fun a => brow.map (fun b => a * b))).flatten))).flatten

/-- `np.kron(A, B)`. -/
def np_kron (A B : Mat) : Mat := kronMat A B

/-- `casadi.kron(A, B)`. -/
def casadi_kron (A B : Mat) : Mat := kronMat A B

/-- `SymbolicHandler.kron`. -/
def nc_kron (is_symbolic : Bool) (A B : Mat) : Mat :=
  if is_symbolic then casadi_kron A B else np_kron A B

/-- Tile a matrix `n` times vertically and `m` times horizontally: the value
content of `numpy.matlib.repmat` and of `casadi.repmat` on a 2-D input. -/
def tileMat (mat : Mat) (n m : ℕ) : Mat :=
  ((List.range n).map (fun _ =>
    mat.map (fun row => ((List.range m).map (fun _ => row)).flatten))).flatten

/-- `utilities.rep_mat(array, n, m) = np.squeeze(repmat(array, n, m))` on a
2-D input: `np.squeeze` only drops singleton axes (it never changes the
row-major sequence of values), so the value content is the tiling. -/
def np_rep_mat (mat : Mat) (n m : ℕ) : Mat := tileMat mat n m

/-- `casadi.repmat(array, n, m)` on a 2-D input. -/
def casadi_repmat (mat : Mat) (n m : ℕ) : Mat := tileMat mat n m

/-- `SymbolicHandler.rep_mat`. -/
def nc_rep_mat (is_symbolic : Bool) (mat : Mat) (n m : ℕ) : Mat :=
  if is_symbolic then casadi_repmat mat n m else np_rep_mat mat n m

/-- `np.reshape(array, [r, c])` of a flat vector: row-major chunks of `c`. -/
def np_reshape2 (array : Vec) (r c : ℕ) : Mat :=
  (List.range r).map (fun i => ((array.drop (i * c)).take c))

/-- `SymbolicHandler.reshape_CasADi_as_np(array, [r, c])`: fills row `i` of
the result with the slice `array[i*n_cols : (i+1)*n_cols]`. -/
def reshape_CasADi_as_np (array : Vec) (r c : ℕ) : Mat :=
  (List.range r).map (fun i => ((array.drop (i * c)).take c))

/-- `SymbolicHandler.reshape` on a flat vector with 2-element dimension
parameters: the symbolic branch delegates to `reshape_CasADi_as_np`
(a row-major re-implementation, since `casadi.reshape` is column-major). -/
def nc_reshape2 (is_symbolic : Bool) (array : Vec) (r c : ℕ) : Mat :=
  if is_symbolic then reshape_CasADi_as_np array r c else np_reshape2 array r c

/-- `np.reshape(array, d)` with an `int` dimension parameter on a 2-D input
(`d` equal to the element count): numpy flattens row-major. -/
def np_reshape_flat (mat : Mat) : Vec := mat.flatten

/-- `casadi.reshape(array, d, 1)` on a 2-D input: CasADi reshapes
column-major, so the flat result reads the matrix column by column. -/
def casadi_reshape_col (mat : Mat) : Vec :=
  (transposeAt mat (colsOf mat)).flatten

/-- `SymbolicHandler.reshape` with an `int` dimension parameter on a 2-D
input: the symbolic branch (`utilities.py` lines 72-73) is
`casadi.reshape(array, dim_params, 1)`, the numeric branch
`np.reshape(array, dim_params)`. -/
def nc_reshape_int (is_symbolic : Bool) (mat : Mat) : Vec :=
  if is_symbolic then casadi_reshape_col mat else np_reshape_flat mat

/-- `np.hstack(tup)` on 1-D inputs: concatenates them into one 1-D array. -/
def np_hstack1 (tup : List Vec) : Vec := tup.flatten

/-- `casadi.horzcat(*tup)` on 1-D inputs of common length `k`: CasADi
converts each vector to a `k`-by-1 column, so the result is the `k`-row
matrix with the inputs as columns. -/
def casadi_horzcat1 (tup : List Vec) (k : ℕ) : Mat :=
  (List.range k).map (fun i => tup.map (fun v => v.getD i 0))

/-- `SymbolicHandler.hstack` on 1-D inputs: numpy returns a 1-D array,
CasADi a 2-D columns-side-by-side matrix. -/
def nc_hstack1 (is_symbolic : Bool) (tup : List Vec) (k : ℕ) : Vec ⊕ Mat :=
  if is_symbolic then Sum.inr (casadi_horzcat1 tup k) else Sum.inl (np_hstack1 tup)

/-- `utilities.rep_mat` on a 1-D input: `numpy.matlib.repmat` treats the
vector as a 1-by-`k` row before tiling (the subsequent `np.squeeze` only
drops singleton axes, leaving the value sequence). -/
def np_rep_mat1 (v : Vec) (n m : ℕ) : Mat := tileMat [v] n m

/-- `casadi.repmat` on a 1-D input: CasADi converts the vector to a
`k`-by-1 column before tiling. -/
def casadi_repmat1 (v : Vec) (n m : ℕ) : Mat :=
  tileMat (v.map (fun x => [x])) n m

/-- `SymbolicHandler.rep_mat` on a 1-D input. -/
def nc_rep_mat1 (is_symbolic : Bool) (v : Vec) (n m : ℕ) : Mat :=
  if is_symbolic then casadi_repmat1 v n m else np_rep_mat1 v n m

/-! The run loop of `Pipeline3WRobot.main_loop_raw` (`pipeline_3wrobot.py`;
`presets/main_3wrobot.py` has the identical episode logic).  The controller
methods `upd_accum_obj`, `accum_obj_val` and `reset` live in
`rcognita/controllers.py`, which is not among the sources; they are modelled
from the spec as marked below. -/

/-- Controller state relevant to the accumulated objective. -/
structure Ctrl where
  accum_obj_val : ℚ
deriving DecidableEq

/-- Modelled from the spec: `CtrlOptPred.upd_accum_obj` (in
`rcognita/controllers.py`, not among the sources) — "update
AccumulatedObjective += Stagecost(observation, action)" (spec section 4.8,
step 5), a running scalar sum of stage costs. -/
def Ctrl.upd_accum_obj (c : Ctrl) (stage : ℚ) : Ctrl :=
  ⟨c.accum_obj_val + stage⟩

/-- Modelled from the spec: `reset(t0)` (in `rcognita/controllers.py`, not
among the sources) — "clears AccumulatedObjective", "resets to exactly 0
immediately after `reset`" (spec sections 4.8 and 8). -/
def Ctrl.reset (_c : Ctrl) : Ctrl := ⟨0⟩

/-- State of the raw run loop that the episode logic touches. -/
structure LoopState where
  benchm : Ctrl
  nominal : Ctrl
  run_curr : ℕ
  t : ℚ
deriving DecidableEq

/-- The per-tick controller bookkeeping of `main_loop_raw`:
`my_ctrl_benchm.upd_accum_obj(observation, action)` is executed on every
tick, whatever the control mode. -/
def loop_tick (stage : ℚ) (s : LoopState) (tNew : ℚ) : LoopState :=
  { s with benchm := s.benchm.upd_accum_obj stage, t := tNew }

/-- The `if t >= self.t1` episode-boundary block of `main_loop_raw`:
increment `run_curr`; stop when `run_curr > Nruns`; otherwise reset the
simulator time and reset `my_ctrl_benchm` when the control mode is not
`"nominal"`, and `my_ctrl_nominal` when it is. -/
def episode_boundary (mode : String) (t1 : ℚ) (Nruns : ℕ) (t0 : ℚ)
    (s : LoopState) : LoopState :=
  if t1 ≤ s.t then
    let r := s.run_curr + 1
    if Nruns < r then { s with run_curr := r }
    else if mode ≠ "nominal" then
      { s with run_curr := r, t := t0, benchm := s.benchm.reset }
    else
      { s with run_curr := r, t := t0, nominal := s.nominal.reset }
  else s

/-- The logging part of one `main_loop_raw` tick: after
`upd_accum_obj(observation, action)`, the row handed to
`my_logger.log_data_row` is `(t, xCoord, yCoord, alpha, v, omega,
stage_obj(observation, action), accum_obj_val, *action)`, where the five
coordinates are `state_full[0..4]`.  Returns the new accumulated value
paired with the logged row. -/
def main_loop_log_row (stage_obj : Vec → Vec → ℚ) (accum0 : ℚ)
    (t : ℚ) (state_full observation action : Vec) : ℚ × Vec :=
  let benchm1 := Ctrl.upd_accum_obj ⟨accum0⟩ (stage_obj observation action)
  let xCoord := state_full.getD 0 0
  let yCoord := state_full.getD 1 0
  let alpha := state_full.getD 2 0
  let v := state_full.getD 3 0
  let omega := state_full.getD 4 0
  let stage := stage_obj observation action
  let accum := benchm1.accum_obj_val
  (accum, [t, xCoord, yCoord, alpha, v, omega, stage, accum] ++ action)

/-! Helper lemmas. -/

/-- A sequence of pushes shifts a window over the initial buffer followed by
the pushed samples. -/
lemma push_many_window {α : Type} :
    ∀ (samples : List (List α)) (m : List (List α)), m ≠ [] →
      push_many m samples = (m ++ samples).drop samples.length := by
  intro samples
  induction samples with
  | nil => intro m _; simp [push_many]
  | cons s ss ih =>
    intro m hm
    have hstep : push_many m (s :: ss) = push_many (push_vec m s) ss := rfl
    rw [hstep, ih (push_vec m s) (by simp [push_vec])]
    rcases m with _ | ⟨a, m'⟩
    · exact absurd rfl hm
    · simp [push_vec, List.append_assoc]

/-- each push on a nonempty buffer keeps the row count. -/
lemma push_vec_length {α : Type} (m : List (List α)) (v : List α) (hm : m ≠ []) :
    (push_vec m v).length = m.length := by
  rcases m with _ | ⟨a, m'⟩
  · exact absurd rfl hm
  · simp [push_vec]

/-- the state and output lists of the `dss_sim` loop have one entry per
consumed input row. -/
lemma dss_steps_length (A B C D : Mat) :
    ∀ (us : List Vec) (x : Vec),
      (dss_steps A B C D x us).1.length = us.length ∧
      (dss_steps A B C D x us).2.length = us.length := by
  intro us
  induction us with
  | nil => intro x; simp [dss_steps]
  | cons u us ih =>
    intro x
    simp [dss_steps, ih]

/-- the first loop state is `A @ x + B @ u` for the first consumed row. -/
lemma dss_steps_head (A B C D : Mat) (x u : Vec) (us : List Vec) :
    (dss_steps A B C D x (u :: us)).1[0]?
      = some (vadd (matVec A x) (matVec B u)) := by
  simp [dss_steps]

/-- consecutive loop states obey the state recurrence. -/
lemma dss_steps_succ (A B C D : Mat) :
    ∀ (us : List Vec) (x : Vec) (j : ℕ) (xj uj1 : Vec),
      (dss_steps A B C D x us).1[j]? = some xj →
      us[j + 1]? = some uj1 →
      (dss_steps A B C D x us).1[j + 1]?
        = some (vadd (matVec A xj) (matVec B uj1)) := by
  intro us
  induction us with
  | nil =>
    intro x j xj uj1 h1 _
    simp [dss_steps] at h1
  | cons u us ih =>
    intro x j xj uj1 h1 h2
    cases j with
    | zero =>
      simp [dss_steps] at h1 h2 ⊢
      cases us with
      | nil => simp at h2
      | cons u2 us2 =>
        simp at h2
        simp [dss_steps, ← h1, ← h2]
    | succ j =>
      simp [dss_steps] at h1 h2 ⊢
      exact ih _ j xj uj1 h1 h2

/-- each loop output is `C @ x_new + D @ u` for the matching state and row. -/
lemma dss_steps_y (A B C D : Mat) :
    ∀ (us : List Vec) (x : Vec) (j : ℕ) (xj uj : Vec),
      (dss_steps A B C D x us).1[j]? = some xj →
      us[j]? = some uj →
      (dss_steps A B C D x us).2[j]?
        = some (vadd (matVec C xj) (matVec D uj)) := by
  intro us
  induction us with
  | nil =>
    intro x j xj uj h1 _
    simp [dss_steps] at h1
  | cons u us ih =>
    intro x j xj uj h1 h2
    cases j with
    | zero =>
      simp [dss_steps] at h1 h2 ⊢
      rw [← h1, ← h2]
    | succ j =>
      simp [dss_steps] at h1 h2 ⊢
      exact ih _ j xj uj h1 h2

/-- indexing into a take below the cut is indexing into the list. -/
lemma getElem?_take_lt {α : Type} :
    ∀ (l : List α) (n i : ℕ), i < n → (l.take n)[i]? = l[i]? := by
  intro l
  induction l with
  | nil => intro n i _; simp
  | cons a l ih =>
    intro n i h
    cases n with
    | zero => omega
    | succ n =>
      cases i with
      | zero => simp
      | succ i => simpa using ih n i (by omega)

/-- taking one past a set position splits off the written element. -/
lemma set_take_succ {α : Type} :
    ∀ (v : List α) (k : ℕ) (x : α), k < v.length →
      (v.set k x).take (k + 1) = v.take k ++ [x] := by
  intro v
  induction v with
  | nil => intro k x h; simp at h
  | cons a v ih =>
    intro k x h
    cases k with
    | zero => simp
    | succ k =>
      simp only [List.set_cons_succ, List.take_succ_cons, List.cons_append,
        List.cons.injEq, true_and]
      exact ih k x (by simpa using h)

/-- folding sequential writes over a preallocated vector of exactly the
written length replaces its contents by the written values. -/
lemma foldl_seqWrite :
    ∀ (xs v : List ℚ) (k : ℕ), k + xs.length = v.length →
      xs.foldl seqWrite (v, k) = (v.take k ++ xs, v.length) := by
  intro xs
  induction xs with
  | nil =>
    intro v k h
    simp at h
    subst h
    simp
  | cons x xs ih =>
    intro v k h
    simp at h
    have hk : k < v.length := by omega
    have hstep : (x :: xs).foldl seqWrite (v, k)
        = xs.foldl seqWrite (v.set k x, k + 1) := rfl
    rw [hstep, ih (v.set k x) (k + 1) (by simp; omega)]
    rw [List.length_set, set_take_succ v k x hk]
    simp

/-- the nested loops of `uptria2vec` are the sequential write of the
row-by-row upper-triangular entry list. -/
lemma uptria2vec_fold_eq (mat : Mat) :
    uptria2vec mat
      = ((uptriaEntries mat).foldl seqWrite
          (List.replicate (mat.length * (mat.length + 1) / 2) (0 : ℚ), 0)).1 := by
  unfold uptria2vec uptriaEntries
  rw [List.foldl_flatten]
  simp only [List.foldl_map, seqWrite]

/-- sums over maps of successors. -/
lemma sum_map_add_one (l : List ℕ) (f : ℕ → ℕ) :
    (l.map (fun i => f i + 1)).sum = (l.map f).sum + l.length := by
  induction l with
  | nil => simp
  | cons a l ih =>
    simp [ih]
    omega

/-- twice the sum of `n - i` over `i < n` is `n * (n + 1)`. -/
lemma sum_desc_twice : ∀ n : ℕ, ((List.range n).map (fun i => n - i)).sum * 2 = n * (n + 1) := by
  intro n
  induction n with
  | zero => simp
  | succ m ih =>
    rw [List.range_succ, List.map_append, List.sum_append]
    have hmap : (List.range m).map (fun i => m + 1 - i)
        = (List.range m).map (fun i => (m - i) + 1) := by
      apply List.map_congr_left
      intro i hi
      have : i < m := List.mem_range.mp hi
      omega
    rw [hmap, sum_map_add_one]
    simp only [List.map_cons, List.map_nil, List.sum_cons, List.sum_nil,
      List.length_range, Nat.add_sub_cancel_left, Nat.sub_self]
    have expand : (m + 1) * (m + 1 + 1) = m * (m + 1) + 2 * m + 2 := by ring
    rw [expand]
    linarith [ih]

/-- the upper-triangular entry list of an `n`-row matrix has `n*(n+1)/2`
entries. -/
lemma uptriaEntries_length_twice (mat : Mat) :
    (uptriaEntries mat).length * 2 = mat.length * (mat.length + 1) := by
  unfold uptriaEntries
  rw [List.length_flatten]
  simp only [List.map_map, Function.comp_def, List.length_map, List.length_range']
  exact sum_desc_twice mat.length

/-! Claim theorems. -/

/-- C1: `push_vec` drops the oldest (first) row and appends the new sample as
the last row, so a buffer of `L` rows keeps exactly `L` rows; pushing at
least `L` samples leaves the buffer equal to the last `L` pushed samples in
push order; in particular pushing samples `1..15` into a 10-row buffer
leaves exactly samples `6..15` in order. -/
theorem push_vec_fifo_spec {α : Type} (L : ℕ) (m : List (List α)) (v : List α)
    (samples : List (List α)) (hL : m.length = L) (hpos : 0 < L) :
    push_vec m v = m.drop 1 ++ [v] ∧
    (push_vec m v).length = L ∧
    (L ≤ samples.length →
      push_many m samples = samples.drop (samples.length - L)) ∧
    push_many (List.replicate 10 ([0] : List ℤ))
        ((List.range 15).map (fun i => [(i : ℤ) + 1]))
      = (List.range 10).map (fun i => [(i : ℤ) + 6]) := by
  have hm : m ≠ [] := by
    intro h; rw [h] at hL; simp at hL; omega
  refine ⟨rfl, by rw [push_vec_length m v hm, hL], ?_, by decide⟩
  intro hk
  rw [push_many_window samples m hm]
  have hsplit : samples.length = m.length + (samples.length - L) := by omega
  calc (m ++ samples).drop samples.length
      = (m ++ samples).drop (m.length + (samples.length - L)) := by rw [← hsplit]
    _ = samples.drop (samples.length - L) := by
        rw [List.drop_append]

/-- C1 witness: the buffer law evaluated at a concrete 2-row buffer. -/
theorem push_vec_fifo_spec_witness :
    push_vec ([[1], [2]] : List (List ℤ)) [3] = ([[1], [2]] : List (List ℤ)).drop 1 ++ [[3]] ∧
    (push_vec ([[1], [2]] : List (List ℤ)) [3]).length = 2 ∧
    (2 ≤ ([[4], [5], [6]] : List (List ℤ)).length →
      push_many ([[1], [2]] : List (List ℤ)) [[4], [5], [6]]
        = ([[4], [5], [6]] : List (List ℤ)).drop (([[4], [5], [6]] : List (List ℤ)).length - 2)) ∧
    push_many (List.replicate 10 ([0] : List ℤ))
        ((List.range 15).map (fun i => [(i : ℤ) + 1]))
      = (List.range 10).map (fun i => [(i : ℤ) + 6]) :=
  push_vec_fifo_spec 2 [[1], [2]] [3] [[4], [5], [6]] (by decide) (by decide)

/-- C5: between sampling ticks (`t - time_step < sample_time`) `hold` returns
the held value and leaves the object unchanged; at or past a tick
(`t - time_step >= sample_time`) it stores the new value and time reference
and returns the new value. -/
theorem ZOH_hold_spec (z : ZOH) (s t : ℚ) :
    (t - z.time_step < z.sample_time →
      (z.hold s t).1 = z.currVal ∧ (z.hold s t).2 = z) ∧
    (z.sample_time ≤ t - z.time_step →
      (z.hold s t).1 = s ∧ (z.hold s t).2 = ⟨t, z.sample_time, s⟩) := by
  constructor
  · intro h
    simp [ZOH.hold, if_neg (not_le.mpr h)]
  · intro h
    simp [ZOH.hold, if_pos h]

/-- C5 witness: a concrete ZOH queried inside and at a sampling tick. -/
theorem ZOH_hold_spec_witness :
    ((ZOH.hold ⟨0, 1, 5⟩ 7 (1/2)).1 = 5 ∧ (ZOH.hold ⟨0, 1, 5⟩ 7 (1/2)).2 = ⟨0, 1, 5⟩) ∧
    ((ZOH.hold ⟨0, 1, 5⟩ 7 2).1 = 7 ∧ (ZOH.hold ⟨0, 1, 5⟩ 7 2).2 = ⟨2, 1, 7⟩) :=
  ⟨(ZOH_hold_spec ⟨0, 1, 5⟩ 7 (1/2)).1 (by norm_num),
   (ZOH_hold_spec ⟨0, 1, 5⟩ 7 2).2 (by norm_num)⟩

/-- C9: `concatenate` on a tuple of one or zero elements takes no branch and
returns `None`, in numeric and in symbolic mode alike. -/
theorem concatenate_short_tuple_spec (is_symbolic : Bool)
    (tup : List (ArrKind × Vec)) (h : tup.length ≤ 1) :
    concatenate is_symbolic tup = PyRet.noneRet := by
  simp [concatenate, Nat.not_lt.mpr h]

/-- C9 witness: the empty tuple and a singleton tuple, in both modes. -/
theorem concatenate_short_tuple_spec_witness :
    concatenate true ([] : List (ArrKind × Vec)) = PyRet.noneRet ∧
    concatenate false [(ArrKind.nparr, ([1, 2] : Vec))] = PyRet.noneRet :=
  ⟨concatenate_short_tuple_spec true [] (by decide),
   concatenate_short_tuple_spec false [(ArrKind.nparr, [1, 2])] (by decide)⟩

/-- C6: at a concrete instance, `upd_pars` replaces exactly `A, B, C, D` and
leaves `x0est` unchanged; but `updateIC` writes the separate attribute
`x0set` and leaves the construction-time state-estimate attribute `x0est`
unchanged — the field set at construction is never updated, contrary to the
claim and to the class docstring. -/
theorem ModelSS_updateIC_divergence :
    (((ModelSS.init [[1]] [[2]] [[3]] [[4]] [5]).upd_pars [[6]] [[7]] [[8]] [[9]]).x0est
        = [5]) ∧
    (((ModelSS.init [[1]] [[2]] [[3]] [[4]] [5]).upd_pars [[6]] [[7]] [[8]] [[9]]).A = [[6]] ∧
     ((ModelSS.init [[1]] [[2]] [[3]] [[4]] [5]).upd_pars [[6]] [[7]] [[8]] [[9]]).B = [[7]] ∧
     ((ModelSS.init [[1]] [[2]] [[3]] [[4]] [5]).upd_pars [[6]] [[7]] [[8]] [[9]]).C = [[8]] ∧
     ((ModelSS.init [[1]] [[2]] [[3]] [[4]] [5]).upd_pars [[6]] [[7]] [[8]] [[9]]).D = [[9]]) ∧
    ((ModelSS.init [[1]] [[2]] [[3]] [[4]] [5]).updateIC [9]).x0est = [5] ∧
    ((ModelSS.init [[1]] [[2]] [[3]] [[4]] [5]).updateIC [9]).x0set = some [9] ∧
    ([5] : Vec) ≠ [9] := by
  refine ⟨rfl, ⟨rfl, rfl, rfl, rfl⟩, rfl, rfl, by decide⟩

/-- C8: with an acceptance test that never fires (e.g. `pdf = 0`), the
`while curr_iter <= max_iters` loop of `rej_sampling_rvs` never exits —
`curr_iter` is never incremented, so the guard `curr_iter <= 1000` stays
true after any number of iterations and the function neither returns a
sample nor returns `None`; when a proposal is accepted it is returned. -/
theorem rej_sampling_unbounded_loop :
    (∀ fuel step, rej_loop (fun _ => false) fuel step 0 = none) ∧
    rej_loop (fun _ => true) 1 0 0 = some (some 0) := by
  constructor
  · intro fuel
    induction fuel with
    | zero => intro step; rfl
    | succ n ih =>
      intro step
      simpa [rej_loop] using ih (step + 1)
  · rfl

/-- C3 (amended): at an episode boundary (`t >= t1`) after which another run
follows (`run_curr + 1 <= Nruns`), for every control mode OTHER THAN
`"nominal"` the benchmark controller's accumulated objective is reset to
exactly 0 before the first tick of the next episode, the run counter is
advanced and the time reference reset. -/
theorem episode_reset_amended (mode : String) (t1 t0 : ℚ) (Nruns : ℕ)
    (s : LoopState) (hmode : mode ≠ "nominal") (hb : t1 ≤ s.t)
    (hrun : s.run_curr + 1 ≤ Nruns) :
    (episode_boundary mode t1 Nruns t0 s).benchm.accum_obj_val = 0 ∧
    (episode_boundary mode t1 Nruns t0 s).run_curr = s.run_curr + 1 ∧
    (episode_boundary mode t1 Nruns t0 s).t = t0 := by
  simp [episode_boundary, if_pos hb, Nat.not_lt.mpr hrun, hmode, Ctrl.reset]

/-- C3 witness: a concrete boundary in MPC mode. -/
theorem episode_reset_amended_witness :
    (episode_boundary "MPC" 1 2 0 ⟨⟨5⟩, ⟨0⟩, 1, 1⟩).benchm.accum_obj_val = 0 ∧
    (episode_boundary "MPC" 1 2 0 ⟨⟨5⟩, ⟨0⟩, 1, 1⟩).run_curr = 1 + 1 ∧
    (episode_boundary "MPC" 1 2 0 ⟨⟨5⟩, ⟨0⟩, 1, 1⟩).t = 0 :=
  episode_reset_amended "MPC" 1 0 2 ⟨⟨5⟩, ⟨0⟩, 1, 1⟩ (by decide) (by norm_num)
    (by decide)

/-- C3 counterexample: in control mode `"nominal"` the boundary block resets
`my_ctrl_nominal`, not the benchmark controller, while `upd_accum_obj` was
called on the benchmark controller every tick — so at the start of the next
episode (another run follows: `run_curr = 2 <= Nruns = 2`) the benchmark
controller's accumulated objective reads 1, not 0. -/
theorem episode_reset_nominal_counterexample :
    (episode_boundary "nominal" 1 2 0 (loop_tick 1 ⟨⟨0⟩, ⟨0⟩, 1, 0⟩ 1)).run_curr = 2 ∧
    2 ≤ 2 ∧
    (episode_boundary "nominal" 1 2 0
        (loop_tick 1 ⟨⟨0⟩, ⟨0⟩, 1, 0⟩ 1)).benchm.accum_obj_val = 1 ∧
    ((1 : ℚ) = 0 → False) := by
  refine ⟨by decide, le_refl 2, ?_, by norm_num⟩
  simp [episode_boundary, loop_tick, Ctrl.upd_accum_obj, Ctrl.reset]

/-- C7: the row handed to the logger after a raw-loop tick is exactly the
tick time, the five state components `x, y, alpha, v, omega`
(`state_full[0..4]`), the stage cost of this tick's (observation, action)
pair, the accumulated cost including this tick, and then the action
components, in that order; the accumulated value is queryable as the first
component. -/
theorem main_loop_log_row_spec (stage_obj : Vec → Vec → ℚ) (accum0 t : ℚ)
    (state_full observation action : Vec) (h5 : 5 ≤ state_full.length) :
    (main_loop_log_row stage_obj accum0 t state_full observation action).2
      = [t] ++ state_full.take 5
        ++ [stage_obj observation action, accum0 + stage_obj observation action]
        ++ action ∧
    (main_loop_log_row stage_obj accum0 t state_full observation action).1
      = accum0 + stage_obj observation action := by
  rcases state_full with _ | ⟨b0, _ | ⟨b1, _ | ⟨b2, _ | ⟨b3, _ | ⟨b4, rest⟩⟩⟩⟩⟩ <;>
    simp at h5 <;>
    simp [main_loop_log_row, Ctrl.upd_accum_obj]

/-- C7 witness: a concrete tick. -/
theorem main_loop_log_row_spec_witness :
    (main_loop_log_row (fun _ _ => 3) 10 2 [4, 5, 6, 7, 8, 9] [1] [2, 3]).2
      = [2] ++ ([4, 5, 6, 7, 8, 9] : Vec).take 5 ++ [3, 10 + 3] ++ [2, 3] ∧
    (main_loop_log_row (fun _ _ => 3) 10 2 [4, 5, 6, 7, 8, 9] [1] [2, 3]).1
      = 10 + 3 :=
  main_loop_log_row_spec (fun _ _ => 3) 10 2 [4, 5, 6, 7, 8, 9] [1] [2, 3]
    (by decide)

/-- C4: `dss_sim` returns `(y0, x0)` unchanged for a 1-D input sequence; for
a 2-D input sequence of `N` rows it returns `(ySqn, xSqn)` of `N` rows each
with `xSqn[0] = x0`, `ySqn[0] = y0`, and for every `k` with `k + 1 < N`:
`xSqn[k+1] = A @ xSqn[k] + B @ uSqn[k]` and
`ySqn[k+1] = C @ xSqn[k+1] + D @ uSqn[k]` — the linear discrete-time
surrogate recurrence of `ModelSS`. -/
theorem dss_sim_spec (A B C D : Mat) (x0 y0 u1d : Vec) (rows : List Vec)
    (hne : rows ≠ []) :
    dss_sim A B C D (.oneD u1d) x0 y0 = Sum.inr (y0, x0) ∧
    ∃ ySqn xSqn,
      dss_sim A B C D (.twoD rows) x0 y0 = Sum.inl (ySqn, xSqn) ∧
      xSqn.length = rows.length ∧ ySqn.length = rows.length ∧
      xSqn[0]? = some x0 ∧ ySqn[0]? = some y0 ∧
      ∀ k xk uk, k + 1 < rows.length →
        xSqn[k]? = some xk → rows[k]? = some uk →
        xSqn[k + 1]? = some (vadd (matVec A xk) (matVec B uk)) ∧
        ySqn[k + 1]?
          = some (vadd (matVec C (vadd (matVec A xk) (matVec B uk)))
              (matVec D uk)) := by
  have hpos : 0 < rows.length := List.length_pos.mpr hne
  refine ⟨rfl,
    y0 :: (dss_steps A B C D x0 (rows.take (rows.length - 1))).2,
    x0 :: (dss_steps A B C D x0 (rows.take (rows.length - 1))).1,
    rfl, ?_, ?_, by simp, by simp, ?_⟩
  · simp [(dss_steps_length A B C D _ x0).1]
    omega
  · simp [(dss_steps_length A B C D _ x0).2]
    omega
  · intro k xk uk hk h1 h2
    have htake : (rows.take (rows.length - 1))[k]? = some uk := by
      rw [getElem?_take_lt rows (rows.length - 1) k (by omega)]
      exact h2
    cases k with
    | zero =>
      simp at h1
      obtain ⟨t0, T, hT⟩ : ∃ t0 T, rows.take (rows.length - 1) = t0 :: T := by
        rcases hcons : rows.take (rows.length - 1) with _ | ⟨t0, T⟩
        · exfalso
          have := congrArg List.length hcons
          simp at this
          omega
        · exact ⟨t0, T, rfl⟩
      have ht0 : t0 = uk := by
        rw [hT] at htake
        simpa using htake
      have hx1 : (dss_steps A B C D x0 (rows.take (rows.length - 1))).1[0]?
          = some (vadd (matVec A x0) (matVec B uk)) := by
        rw [hT, dss_steps_head, ht0]
      have hxk : xk = x0 := h1.symm
      rw [hxk]
      refine ⟨by simpa using hx1, ?_⟩
      have := dss_steps_y A B C D (rows.take (rows.length - 1)) x0 0
        (vadd (matVec A x0) (matVec B uk)) uk hx1 htake
      simpa using this
    | succ j =>
      simp at h1 ⊢
      have hx1 := dss_steps_succ A B C D (rows.take (rows.length - 1)) x0 j
        xk uk h1 htake
      refine ⟨hx1, ?_⟩
      exact dss_steps_y A B C D (rows.take (rows.length - 1)) x0 (j + 1)
        (vadd (matVec A xk) (matVec B uk)) uk hx1 htake

/-- C4 witness: the recurrence instantiated on a concrete scalar system with
two input rows. -/
theorem dss_sim_spec_witness :
    dss_sim [[2]] [[1]] [[1]] [[0]] (.oneD [7]) [1] [5] = Sum.inr ([5], [1]) ∧
    ∃ ySqn xSqn,
      dss_sim [[2]] [[1]] [[1]] [[0]] (.twoD [[1], [1]]) [1] [5]
        = Sum.inl (ySqn, xSqn) ∧
      xSqn.length = ([[1], [1]] : List Vec).length ∧
      ySqn.length = ([[1], [1]] : List Vec).length ∧
      xSqn[0]? = some [1] ∧ ySqn[0]? = some [5] ∧
      ∀ k xk uk, k + 1 < ([[1], [1]] : List Vec).length →
        xSqn[k]? = some xk → ([[1], [1]] : List Vec)[k]? = some uk →
        xSqn[k + 1]? = some (vadd (matVec [[2]] xk) (matVec [[1]] uk)) ∧
        ySqn[k + 1]?
          = some (vadd (matVec [[1]] (vadd (matVec [[2]] xk) (matVec [[1]] uk)))
              (matVec [[0]] uk)) :=
  dss_sim_spec [[2]] [[1]] [[1]] [[0]] [1] [5] [7] [[1], [1]] (by decide)

/-- C2 (amended): symbolic and numeric mode of the dual-mode primitives agree
exactly (over exact arithmetic; the claim's tolerance absorbs rounding) for
the elementwise primitives `cos`, `sin`, `abs`, `sign`, for `matmul` and
`kron`, for the stacking and tiling primitives `vstack`, `hstack`,
`rep_mat` restricted to 2-D (matrix) inputs, for `reshape` restricted to a
two-element `[rows, cols]` dimension parameter, for `inner_product` and
`dot` restricted to vector (1-D) operands, for `min` restricted to arrays
of exactly two elements, and for `concatenate` on tuples of more than one
CasADi-typed array.  The exceptions forced by the code are `max` (whose
symbolic branch is an arity error on every input), `min` on arrays of any
other length, `dot` / `inner_product` on 2-D operands (Frobenius scalar vs
matrix product), `reshape` with an `int` dimension parameter on a 2-D input
(column-major `casadi.reshape` vs row-major `np.reshape`), and `hstack` /
`rep_mat` on 1-D inputs (numpy's row convention vs CasADi's
vector-as-column convention yields differently arranged values). -/
theorem dual_mode_equiv_amended :
    (∀ cosine v, nc_cos cosine true v = nc_cos cosine false v) ∧
    (∀ sine v, nc_sin sine true v = nc_sin sine false v) ∧
    (∀ tup, nc_vstack true tup = nc_vstack false tup) ∧
    (∀ tup r, nc_hstack true tup r = nc_hstack false tup r) ∧
    (∀ A B c, nc_matmul true A B c = nc_matmul false A B c) ∧
    (∀ v w, nc_inner_product true (.vecs v w) = nc_inner_product false (.vecs v w)) ∧
    (∀ v w, nc_dot true (.vecs v w) = nc_dot false (.vecs v w)) ∧
    (∀ a b, nc_min true [a, b] = nc_min false [a, b]) ∧
    (∀ v, nc_abs true v = nc_abs false v) ∧
    (∀ v, nc_sign true v = nc_sign false v) ∧
    (∀ A B, nc_kron true A B = nc_kron false A B) ∧
    (∀ m n k, nc_rep_mat true m n k = nc_rep_mat false m n k) ∧
    (∀ arr r c, nc_reshape2 true arr r c = nc_reshape2 false arr r c) ∧
    (∀ tup, 1 < tup.length → (∀ a ∈ tup, a.1 = ArrKind.dm) →
      concatenate true tup = concatenate false tup) := by
  refine ⟨fun _ _ => rfl, fun _ _ => rfl, fun _ => rfl, fun _ _ => rfl,
    fun _ _ _ => rfl, fun _ _ => rfl, fun _ _ => rfl, ?_, fun _ => rfl,
    fun _ => rfl, fun _ _ => rfl, fun _ _ _ => rfl, fun _ _ _ => rfl, ?_⟩
  · intro a b
    simp [nc_min, casadi_fmin_star, np_min, List.min?]
  · intro tup hlen hdm
    have hall : tup.all (fun a => a.1 == ArrKind.dm || a.1 == ArrKind.sx) = true := by
      rw [List.all_eq_true]
      intro a ha
      rw [hdm a ha]
      rfl
    simp [concatenate, hlen, hall]

/-- C2 witness: the two-element `min` law and the all-DM `concatenate` law at
concrete inputs. -/
theorem dual_mode_equiv_amended_witness :
    nc_min true [4, 2] = nc_min false [4, 2] ∧
    concatenate true [(ArrKind.dm, ([1] : Vec)), (ArrKind.dm, ([2] : Vec))]
      = concatenate false [(ArrKind.dm, [1]), (ArrKind.dm, [2])] :=
  ⟨dual_mode_equiv_amended.2.2.2.2.2.2.2.1 4 2,
   dual_mode_equiv_amended.2.2.2.2.2.2.2.2.2.2.2.2.2
     [(ArrKind.dm, [1]), (ArrKind.dm, [2])] (by decide) (by decide)⟩

/-- C2 counterexample: the claim fails as stated.  On the concrete array
`[3, 1, 2]`, numeric `max` returns 3 while the symbolic branch
`casadi.fmax(array)` passes one argument to the binary `casadi.fmax` and
raises (no numeric result); `min` likewise raises for a three-element array
since `casadi.fmin(*array)` unpacks three arguments into a binary function;
on the 2-D operands `I` and `2I`, numeric `dot`/`inner_product` return the
matrix `2I` while `casadi.dot` returns the scalar Frobenius product 4;
`reshape` of the matrix `[[1,2],[3,4]]` to an `int` dimension gives
`[1,2,3,4]` row-major in numeric mode but `[1,3,2,4]` column-major in
symbolic mode; `hstack` of the 1-D inputs `[1,2]` and `[3,4]` gives the
1-D `[1,2,3,4]` in numeric mode but the matrix `[[1,3],[2,4]]` in symbolic
mode; and `rep_mat` of the 1-D `[1,2]` with `n=1, m=2` gives the row
`[1,2,1,2]` in numeric mode but the column tiling `[[1,1],[2,2]]` in
symbolic mode. -/
theorem dual_mode_max_counterexample :
    nc_max false [3, 1, 2] = some 3 ∧
    nc_max true [3, 1, 2] = none ∧
    nc_min false [1, 2, 3] = some 1 ∧
    nc_min true [1, 2, 3] = none ∧
    nc_dot false (.mats [[1, 0], [0, 1]] [[2, 0], [0, 2]])
      = Sum.inr [[2, 0], [0, 2]] ∧
    nc_dot true (.mats [[1, 0], [0, 1]] [[2, 0], [0, 2]]) = Sum.inl 4 ∧
    nc_inner_product false (.mats [[1, 0], [0, 1]] [[2, 0], [0, 2]])
      = Sum.inr [[2, 0], [0, 2]] ∧
    nc_inner_product true (.mats [[1, 0], [0, 1]] [[2, 0], [0, 2]])
      = Sum.inl 4 ∧
    nc_reshape_int false [[1, 2], [3, 4]] = [1, 2, 3, 4] ∧
    nc_reshape_int true [[1, 2], [3, 4]] = [1, 3, 2, 4] ∧
    nc_hstack1 false [[1, 2], [3, 4]] 2 = Sum.inl [1, 2, 3, 4] ∧
    nc_hstack1 true [[1, 2], [3, 4]] 2 = Sum.inr [[1, 3], [2, 4]] ∧
    nc_rep_mat1 false [1, 2] 1 2 = [[1, 2, 1, 2]] ∧
    nc_rep_mat1 true [1, 2] 1 2 = [[1, 1], [2, 2]] := by
  refine ⟨?_, rfl, ?_, rfl, ?_, ?_, ?_, ?_, ?_, ?_, ?_, ?_, ?_, ?_⟩ <;>
    simp [nc_max, nc_min, nc_dot, nc_inner_product, np_max, np_min, np_at,
      np_inner, casadi_dot, matMul, transposeAt, colsOf, rowAt, dotProd,
      frobInner, nc_reshape_int, np_reshape_flat, casadi_reshape_col,
      nc_hstack1, np_hstack1, casadi_horzcat1, nc_rep_mat1, np_rep_mat1,
      casadi_repmat1, tileMat, List.max?, List.min?, List.range_succ] <;>
    norm_num

/-- C10: for an `n`-by-`n` matrix, `uptria2vec` returns a vector of exactly
`n*(n+1)/2` entries, namely the upper-triangular entries `mat[i, j]` with
`j >= i`, ordered row by row (increasing `i`, then increasing `j`). -/
theorem uptria2vec_spec (mat : Mat)
    (hsq : ∀ row ∈ mat, row.length = mat.length) :
    uptria2vec mat = uptriaEntries mat ∧
    (uptria2vec mat).length = mat.length * (mat.length + 1) / 2 := by
  have hlen2 := uptriaEntries_length_twice mat
  have hL : (uptriaEntries mat).length = mat.length * (mat.length + 1) / 2 :=
    (Nat.div_eq_of_eq_mul_left (by norm_num) hlen2.symm).symm
  have hfold := uptria2vec_fold_eq mat
  have hwrite := foldl_seqWrite (uptriaEntries mat)
    (List.replicate (mat.length * (mat.length + 1) / 2) (0 : ℚ)) 0
    (by simpa using hL)
  constructor
  · rw [hfold, hwrite]
    simp
  · rw [hfold, hwrite]
    simpa using hL

/-- C10 witness: a concrete 3-by-3 matrix. -/
theorem uptria2vec_spec_witness :
    uptria2vec [[1, 2, 3], [4, 5, 6], [7, 8, 9]]
      = uptriaEntries [[1, 2, 3], [4, 5, 6], [7, 8, 9]] ∧
    (uptria2vec [[1, 2, 3], [4, 5, 6], [7, 8, 9]]).length
      = ([[1, 2, 3], [4, 5, 6], [7, 8, 9]] : Mat).length
        * (([[1, 2, 3], [4, 5, 6], [7, 8, 9]] : Mat).length + 1) / 2 :=
  uptria2vec_spec [[1, 2, 3], [4, 5, 6], [7, 8, 9]] (by decide)

end Rcognita
